import Mathlib

/-!
Shallow embedding of `prepare_dataset.py` (Project Gutenberg preprocessing
pipeline) and verification of its specification.

Strings model Python `str` values (sequences of Unicode code points, which is
what `List Char` in a Lean `String` holds).  File I/O is modelled by passing
the decoded content (or the decode failure) explicitly; the external
`langdetect.detect` classifier is modelled as an abstract function
`detect : String → Option String`, where `none` models `detect` raising
`LangDetectException` and `some lang` models it returning the language code
`lang`.
-/

/-- Python whitespace: the set of code points matched by the regex class
whitespace escape and stripped by Python string strip, for the code points
relevant here (ASCII whitespace, NEL, NBSP and the Unicode space separators). -/
def isPySpace (c : Char) : Bool :=
  let n := c.toNat
  n = 0x20 || (0x9 ≤ n && n ≤ 0xd) || (0x1c ≤ n && n ≤ 0x1f) ||
    n = 0x85 || n = 0xa0 || n = 0x1680 || (0x2000 ≤ n && n ≤ 0x200a) ||
    n = 0x2028 || n = 0x2029 || n = 0x202f || n = 0x205f || n = 0x3000

/-- Python string strip with no argument: remove leading and trailing
whitespace code points. -/
def pyStrip (s : String) : String :=
  String.mk (((s.data.dropWhile isPySpace).reverse.dropWhile isPySpace).reverse)

/-- Python string slice of the first `n` code points, as in `text[:1000]` and
`file.read(1000)` on a text-mode file. -/
def pyTake (s : String) (n : Nat) : String :=
  String.mk (s.data.take n)

/-- Python `text.split(sep)` for the one-character separator `sep = newline`,
on the underlying code-point list.  `splitNl [] = [[]]` matches Python, where
splitting the empty string yields one empty field. -/
def splitNl : List Char → List (List Char)
  | [] => [[]]
  | c :: rest =>
    match splitNl rest with
    | [] => [[]]
    | seg :: segs => if c = '\n' then [] :: seg :: segs else (c :: seg) :: segs

/-- The line list of a document, as computed by the source via
`text.split` on a newline. -/
def pyLines (text : String) : List String :=
  (splitNl text.data).map String.mk

/-- Source lines 15-22, `remove_gutenberg_boilerplate(text)`: split the text on
newlines; if there are at most 15 lines return the text unchanged, otherwise
join the lines from index 40 on with newlines. -/
def remove_gutenberg_boilerplate (text : String) : String :=
  let lines := pyLines text
  if lines.length ≤ 15 then text
  else String.intercalate "\n" (lines.drop 40)

/-- Index of the last newline in a code-point list, if any. -/
def lastNl : List Char → Option Nat
  | [] => none
  | c :: cs =>
    match lastNl cs with
    | some i => some (i + 1)
    | none => if c = '\n' then some 0 else none

/-- Matching of the regex `newline, whitespace star, newline` at a position
whose initial newline has already been consumed: the greedy whitespace star
backtracks until the next pattern character (a newline) matches, so the match
extends through the LAST newline of the maximal whitespace run that follows.
Returns the number of further code points consumed, or `none` when the run
contains no newline (no match at this position). -/
def matchLen (rest : List Char) : Option Nat :=
  match lastNl (rest.takeWhile isPySpace) with
  | some i => some (i + 1)
  | none => none

/-- Source line 171, the substitution `re.sub` of the pattern
`newline, whitespace star, newline` by two newlines: scan left to right; at
each newline try to match the rest of the pattern greedily; on a match emit
two newlines and continue after the match (matches never overlap), otherwise
copy the character. -/
def subBlank : List Char → List Char
  | [] => []
  | c :: rest =>
    if c = '\n' then
      match matchLen rest with
      | some n => '\n' :: '\n' :: subBlank (rest.drop n)
      | none => '\n' :: subBlank rest
    else
      c :: subBlank rest
termination_by l => l.length
decreasing_by
  all_goals simp_all [List.length_drop]
  omega

/-- The blank-line normalization applied to a document between boilerplate
stripping and the length check. -/
def normalizeBlankLines (content : String) : String :=
  String.mk (subBlank content.data)

/-- Source lines 131-138, `is_english_using_langdetect(text)`: classify the
first 1000 characters; `LangDetectException` (modelled by `none`) yields
`False`. -/
def is_english_using_langdetect (detect : String → Option String)
    (text : String) : Bool :=
  match detect (pyTake text 1000) with
  | some lang => lang == "en"
  | none => false

/-- The mutable accumulator state of `combine_files` (source lines 144-146):
the in-progress shard, its running byte size, the 1-based shard counter, and
the document lists of the shard files written so far (in write order). -/
structure CombineState where
  current_content : List String
  current_size : Nat
  file_counter : Nat
  written : List (List String)
deriving DecidableEq

/-- Accumulator state at the start of `combine_files`. -/
def initCombineState : CombineState :=
  ⟨[], 0, 1, []⟩

/-- Source lines 178-188, the per-accepted-document accumulator step: estimate
the size as the UTF-8 byte length; if the running size plus the estimate
exceeds the byte budget, write the current shard, bump the counter and start a
fresh shard holding only this document; otherwise append the document and add
its estimate to the running size. -/
def addContent (max_size_mb : Nat) (st : CombineState) (content : String) :
    CombineState :=
  let estimated_size := content.utf8ByteSize
  if st.current_size + estimated_size > max_size_mb * 1024 * 1024 then
    { current_content := [content]
      current_size := estimated_size
      file_counter := st.file_counter + 1
      written := st.written ++ [st.current_content] }
  else
    { st with
      current_content := st.current_content ++ [content]
      current_size := st.current_size + estimated_size }

/-- Source lines 190-193, the post-loop flush: if the in-progress shard is
non-empty, write it as one more shard file; the counter is not bumped here. -/
def finalFlush (st : CombineState) : List (List String) :=
  if st.current_content ≠ [] then st.written ++ [st.current_content]
  else st.written

/-- The shard files produced by feeding a sequence of cleaned document texts
to the accumulator (the add loop of `combine_files` followed by the final
flush), each shard given as its document list in insertion order. -/
def runAccumulator (max_size_mb : Nat) (docs : List String) :
    List (List String) :=
  finalFlush (docs.foldl (addContent max_size_mb) initCombineState)

/-- Sum of the UTF-8 byte lengths of a shard's documents. -/
def byteSum (docs : List String) : Nat :=
  (docs.map String.utf8ByteSize).sum

/-- Text written to a shard file: the documents joined by the separator
(source lines 182 and 193, `separator.join(current_content)`). -/
def shardFileContent (separator : String) (docs : List String) : String :=
  String.intercalate separator docs

/-- A written shard respects the byte budget, or is a single document whose
own size already exceeds the budget. -/
def shardWithinBudget (max_size_mb : Nat) (shard : List String) : Prop :=
  byteSum shard ≤ max_size_mb * 1024 * 1024 ∨
    ∃ d, shard = [d] ∧ max_size_mb * 1024 * 1024 < d.utf8ByteSize

/-- Invariant carried through the add loop: every written shard respects the
budget rule, the in-progress shard does too, and the running size equals the
byte sum of the in-progress shard. -/
def accInvariant (max_size_mb : Nat) (st : CombineState) : Prop :=
  (∀ sh ∈ st.written, shardWithinBudget max_size_mb sh) ∧
    shardWithinBudget max_size_mb st.current_content ∧
    st.current_size = byteSum st.current_content

/-- Outcome of one attempt to open and read a file with a given encoding:
a decoded content, a decode failure, or any other exception. -/
inductive ReadOutcome where
  | ok (content : String)
  | unicodeError
  | otherError
deriving DecidableEq

/-- A file on disk as `combine_files` can observe it: the outcome of reading
it with the primary encoding and the outcome of reading it with the fallback
encoding. -/
structure FileOnDisk where
  primary : ReadOutcome
  fallback : ReadOutcome
deriving DecidableEq

/-- Source lines 151-158: read with the primary encoding; only a decode error
is caught, in which case the read is retried once with the fallback encoding;
any failure of the fallback read (and any non-decode failure of the primary
read) is an uncaught exception, modelled by `Except.error ()`. -/
def readWithFallback (f : FileOnDisk) : Except Unit String :=
  match f.primary with
  | .ok content => .ok content
  | .unicodeError =>
    match f.fallback with
    | .ok content => .ok content
    | _ => .error ()
  | .otherError => .error ()

/-- Accumulator state plus the language statistics of `combine_files`
(source line 148). -/
structure CombineStats where
  state : CombineState
  en : Nat
  other : Nat
deriving DecidableEq

/-- State of `combine_files` before the first file. -/
def initCombineStats : CombineStats :=
  ⟨initCombineState, 0, 0⟩

/-- Source lines 150-188, the body of the per-file loop of `combine_files`:
read the file (with the fallback policy); run the language check on the raw
text and skip the file (counting it under `other`) if it fails; otherwise
count it under `en`, strip the boilerplate, normalize blank lines, skip if
the stripped cleaned text is shorter than 100 characters, and otherwise feed
the cleaned text to the accumulator. -/
def processFile (detect : String → Option String) (max_size_mb : Nat)
    (acc : CombineStats) (f : FileOnDisk) : Except Unit CombineStats :=
  match readWithFallback f with
  | .error e => .error e
  | .ok content =>
    if is_english_using_langdetect detect content = false then
      .ok { acc with other := acc.other + 1 }
    else
      let content1 := remove_gutenberg_boilerplate content
      let content2 := normalizeBlankLines content1
      if (pyStrip content2).length < 100 then
        .ok { acc with en := acc.en + 1 }
      else
        .ok { acc with
          en := acc.en + 1
          state := addContent max_size_mb acc.state content2 }

/-- Source lines 140-199, `combine_files`: fold the per-file step over the
input files (an uncaught exception in any file aborts the whole run), then
apply the final flush.  Returns the written shards (as document lists), the
returned `file_counter`, and the `en` and `other` statistics. -/
def combine_files (detect : String → Option String) (max_size_mb : Nat)
    (file_paths : List FileOnDisk) :
    Except Unit (List (List String) × Nat × Nat × Nat) :=
  (file_paths.foldlM (processFile detect max_size_mb) initCombineStats).map
    (fun acc =>
      (finalFlush acc.state, acc.state.file_counter, acc.en, acc.other))

/-- One entry of the result dictionary of `check_english_files`
(source lines 51-93). -/
structure LangResult where
  is_english : Bool
  language : String
  error : Option String
deriving DecidableEq

/-- Source lines 52-69, the per-file classification of `check_english_files`:
read the first 1000 characters and strip them; an empty sample is recorded as
an Empty file entry; otherwise the sample is classified, a
`LangDetectException` being recorded as a detection error entry. -/
def prescanClassify (detect : String → Option String) (raw : String) :
    LangResult :=
  let content := pyStrip (pyTake raw 1000)
  if content = "" then ⟨false, "unknown", some "Empty file"⟩
  else
    match detect content with
    | some detected_lang => ⟨detected_lang == "en", detected_lang, none⟩
    | none => ⟨false, "unknown", some "Language detection error"⟩

/-- Source lines 201-223, the removed-character percentage computed by
`clean_and_verify_gutenberg`: the difference of the original and cleaned
lengths divided by the original length, times 100.  The division raises a
zero-division error when the original content is empty, modelled by `none`. -/
def clean_and_verify_percentage (original_content : String) : Option ℚ :=
  let cleaned_content := remove_gutenberg_boilerplate original_content
  if original_content.length = 0 then none
  else
    some (((original_content.length : ℚ) - (cleaned_content.length : ℚ)) /
      (original_content.length : ℚ) * 100)

/-- Classifier stub for witnesses: every sample classifies as French. -/
def detectConstFr : String → Option String :=
  fun _ => some "fr"

/-- Classifier stub for witnesses: every sample classifies as English. -/
def detectConstEn : String → Option String :=
  fun _ => some "en"

/-- Classifier stub modelling the documented behavior of the external
classifier on featureless input: a whitespace-only sample raises (modelled by
`none`), any other sample classifies as English. -/
def detectEnUnlessBlank : String → Option String :=
  fun s => if pyStrip s = "" then none else some "en"

/-- A document with exactly 16 lines, used to settle the removed-line-count
formula. -/
def cexText16 : String :=
  "a\na\na\na\na\na\na\na\na\na\na\na\na\na\na\na"

/-! ### Accumulator lemmas -/

theorem byteSum_nil : byteSum [] = 0 := rfl

theorem byteSum_singleton (c : String) : byteSum [c] = c.utf8ByteSize := by
  simp [byteSum]

theorem byteSum_append_singleton (l : List String) (c : String) :
    byteSum (l ++ [c]) = byteSum l + c.utf8ByteSize := by
  simp [byteSum]

theorem addContent_invariant (max_size_mb : Nat) (st : CombineState)
    (c : String) (h : accInvariant max_size_mb st) :
    accInvariant max_size_mb (addContent max_size_mb st c) := by
  obtain ⟨hw, hcur, hsize⟩ := h
  unfold addContent
  by_cases hcond :
      st.current_size + c.utf8ByteSize > max_size_mb * 1024 * 1024
  · simp only [if_pos hcond]
    refine ⟨?_, ?_, ?_⟩
    · intro sh hsh
      rcases List.mem_append.mp hsh with h1 | h2
      · exact hw sh h1
      · rw [List.mem_singleton.mp h2]
        exact hcur
    · by_cases hbig : c.utf8ByteSize ≤ max_size_mb * 1024 * 1024
      · exact Or.inl (by rw [byteSum_singleton]; exact hbig)
      · exact Or.inr ⟨c, rfl, by omega⟩
    · simp [byteSum_singleton]
  · simp only [if_neg hcond]
    refine ⟨hw, ?_, ?_⟩
    · left
      rw [byteSum_append_singleton]
      omega
    · simp [byteSum_append_singleton, hsize]

theorem foldl_addContent_invariant (max_size_mb : Nat) (docs : List String)
    (st : CombineState) (h : accInvariant max_size_mb st) :
    accInvariant max_size_mb (docs.foldl (addContent max_size_mb) st) := by
  induction docs generalizing st with
  | nil => exact h
  | cons d ds ih => exact ih _ (addContent_invariant max_size_mb st d h)

theorem initCombineState_invariant (max_size_mb : Nat) :
    accInvariant max_size_mb initCombineState := by
  refine ⟨?_, Or.inl ?_, rfl⟩
  · intro sh hsh
    simp [initCombineState] at hsh
  · simp [initCombineState, byteSum_nil]

theorem runAccumulator_sound (max_size_mb : Nat) (docs : List String) :
    ∀ sh ∈ runAccumulator max_size_mb docs, shardWithinBudget max_size_mb sh := by
  intro sh hsh
  have hinv := foldl_addContent_invariant max_size_mb docs _
    (initCombineState_invariant max_size_mb)
  obtain ⟨hw, hcur, -⟩ := hinv
  unfold runAccumulator finalFlush at hsh
  split at hsh
  · rcases List.mem_append.mp hsh with h1 | h2
    · exact hw sh h1
    · rw [List.mem_singleton.mp h2]
      exact hcur
  · exact hw sh hsh

theorem addContent_no_flush (max_size_mb : Nat) (st : CombineState)
    (c : String)
    (hfits : st.current_size + c.utf8ByteSize ≤ max_size_mb * 1024 * 1024) :
    (addContent max_size_mb st c).written = st.written := by
  unfold addContent
  simp only [if_neg (by omega : ¬ st.current_size + c.utf8ByteSize >
    max_size_mb * 1024 * 1024)]

theorem processFile_rejected_eq (detect : String → Option String)
    (max_size_mb : Nat) (acc : CombineStats) (f : FileOnDisk)
    (content : String)
    (hread : readWithFallback f = Except.ok content)
    (hrej : is_english_using_langdetect detect content = false) :
    processFile detect max_size_mb acc f =
      Except.ok { acc with other := acc.other + 1 } := by
  unfold processFile
  rw [hread]
  simp [hrej]

/-! ### Claim C1 -/

/-- C1: for every sequence of cleaned document texts fed to the accumulator
(add loop plus final flush), the UTF-8 byte sum of every written shard is at
most `max_size_mb*1024*1024`, unless the shard is a single document whose own
byte length already exceeds the budget; and the threshold comparison is
strict, so an addition that brings the shard exactly to the budget does not
flush. -/
theorem shard_size_invariant (max_size_mb : Nat) (docs : List String)
    (sh : List String) (st : CombineState) (c : String)
    (hmem : sh ∈ runAccumulator max_size_mb docs)
    (hfits : st.current_size + c.utf8ByteSize ≤ max_size_mb * 1024 * 1024) :
    (byteSum sh ≤ max_size_mb * 1024 * 1024 ∨
      ∃ d, sh = [d] ∧ max_size_mb * 1024 * 1024 < d.utf8ByteSize) ∧
    (addContent max_size_mb st c).written = st.written :=
  ⟨runAccumulator_sound max_size_mb docs sh hmem,
   addContent_no_flush max_size_mb st c hfits⟩

/-- Witness for C1 at a concrete run: one small document, budget one
megabyte. -/
theorem shard_size_invariant_witness :
    (byteSum ["a"] ≤ 1 * 1024 * 1024 ∨
      ∃ d, ["a"] = [d] ∧ 1 * 1024 * 1024 < d.utf8ByteSize) ∧
    (addContent 1 initCombineState "a").written = initCombineState.written :=
  shard_size_invariant 1 ["a"] ["a"] initCombineState "a" (by decide)
    (by decide)

/-! ### Claim C2 -/

/-- C2 counterexample: with budget 0 the very first accepted document already
exceeds the budget and the flush writes a shard with zero documents — the
first written shard is empty. -/
theorem empty_shard_written_cex :
    [] ∈ runAccumulator 0 ["a"] ∧ runAccumulator 0 ["a"] = [[], ["a"]] := by
  decide

/-- C2 (amended): the flush in the add step is triggered by the byte budget
alone, with no non-emptiness check — whenever the budget would be exceeded
the current shard is written as it stands, even when it is empty (as happens
when the very first accepted document alone exceeds the budget). -/
theorem flush_ignores_emptiness (max_size_mb : Nat) (st : CombineState)
    (c : String)
    (h : st.current_size + c.utf8ByteSize > max_size_mb * 1024 * 1024) :
    addContent max_size_mb st c =
      ⟨[c], c.utf8ByteSize, st.file_counter + 1,
        st.written ++ [st.current_content]⟩ := by
  unfold addContent
  simp only [if_pos h]

/-- Witness for the amended C2: the first oversized document flushes the
empty initial shard. -/
theorem flush_ignores_emptiness_witness :
    addContent 0 initCombineState "a" =
      ⟨["a"], String.utf8ByteSize "a", initCombineState.file_counter + 1,
        initCombineState.written ++ [initCombineState.current_content]⟩ :=
  flush_ignores_emptiness 0 initCombineState "a" (by decide)

/-! ### Claim C4 -/

/-- C4: on zero input files `combine_files` raises no error and writes no
shard, but returns `file_counter = 1`, which the main block prints as the
number of files saved — the reported count differs from the number of shard
files actually written (0). -/
theorem zero_input_files_eval :
    combine_files detectConstEn 500 [] = Except.ok ([], 1, 0, 0) ∧
    (1 : Nat) ≠ ([] : List (List String)).length := by
  exact ⟨rfl, by decide⟩

/-! ### Claim C6 -/

/-- C6: the language check of the combine step is applied to the raw decoded
text (its first 1000 characters) before any cleaning, and a file rejected by
it is counted under `other` and skipped at once: the whole remaining state
(accumulator and `en` count) is untouched, so boilerplate stripping,
blank-line normalization and the post-clean length check are never applied to
the rejected document. -/
theorem language_check_on_raw (detect : String → Option String)
    (max_size_mb : Nat) (acc : CombineStats) (f : FileOnDisk)
    (content : String)
    (hread : readWithFallback f = Except.ok content)
    (hrej : is_english_using_langdetect detect content = false) :
    processFile detect max_size_mb acc f =
      Except.ok { acc with other := acc.other + 1 } ∧
    (is_english_using_langdetect detect content = true ↔
      detect (pyTake content 1000) = some "en") := by
  constructor
  · exact processFile_rejected_eq detect max_size_mb acc f content hread hrej
  · unfold is_english_using_langdetect
    cases h : detect (pyTake content 1000) with
    | none => simp
    | some lang => simp

/-- Witness for C6: a French document is counted under `other` with the rest
of the state untouched. -/
theorem language_check_on_raw_witness :
    processFile detectConstFr 500 initCombineStats
        ⟨ReadOutcome.ok "bonjour", ReadOutcome.otherError⟩ =
      Except.ok { initCombineStats with other := initCombineStats.other + 1 } ∧
    (is_english_using_langdetect detectConstFr "bonjour" = true ↔
      detectConstFr (pyTake "bonjour" 1000) = some "en") :=
  language_check_on_raw detectConstFr 500 initCombineStats
    ⟨ReadOutcome.ok "bonjour", ReadOutcome.otherError⟩ "bonjour" rfl
    (by decide)

/-! ### Claim C7 -/

/-- C7: the final flush writes exactly one additional shard when the
in-progress shard is non-empty — its documents in insertion order, the file
text being those documents joined by the separator — and writes no file when
the in-progress shard is empty. -/
theorem finalize_spec (separator : String) (st : CombineState) :
    (st.current_content ≠ [] →
      finalFlush st = st.written ++ [st.current_content] ∧
      (finalFlush st).map (shardFileContent separator) =
        st.written.map (shardFileContent separator) ++
          [String.intercalate separator st.current_content]) ∧
    (st.current_content = [] → finalFlush st = st.written) := by
  constructor
  · intro h
    unfold finalFlush
    rw [if_pos h]
    simp [shardFileContent]
  · intro h
    unfold finalFlush
    rw [if_neg (by simp [h])]

/-- Witness for C7: a two-document in-progress shard is flushed as one file
with the documents joined by the separator; an empty one writes nothing. -/
theorem finalize_spec_witness :
    (finalFlush ⟨["a", "b"], 2, 1, []⟩ = [] ++ [["a", "b"]] ∧
      (finalFlush ⟨["a", "b"], 2, 1, []⟩).map (shardFileContent "|") =
        ([] : List (List String)).map (shardFileContent "|") ++
          [String.intercalate "|" ["a", "b"]]) ∧
    finalFlush ⟨[], 0, 1, []⟩ = [] :=
  ⟨(finalize_spec "|" ⟨["a", "b"], 2, 1, []⟩).1 (by decide),
   (finalize_spec "|" ⟨[], 0, 1, []⟩).2 rfl⟩

/-! ### Claim C10 -/

/-- C10: the removed-character percentage computed by the cleanup diagnostic
is well-defined exactly when the decoded original content is non-empty; on an
empty file the division by the original length is a division by zero. -/
theorem clean_verify_division_defined (original_content : String) :
    (clean_and_verify_percentage original_content).isSome ↔
      0 < original_content.length := by
  unfold clean_and_verify_percentage
  by_cases h : original_content.length = 0
  · simp [h]
  · rw [if_neg h]
    simpa using Nat.pos_of_ne_zero h

/-! ### Claim C5 -/

/-- C5 counterexample: a 16-line document has more than 15 lines, so 40-line
dropping applies and removes all 16 lines, while the formula
`max 0 (total_lines - 40)` gives 0 — the removed-line count of the claim is
wrong for documents of 16 to 79 lines. -/
theorem boilerplate_removed_count_cex :
    15 < (pyLines cexText16).length ∧
    (pyLines cexText16).length - ((pyLines cexText16).drop 40).length = 16 ∧
    max 0 (((pyLines cexText16).length : Int) - 40) = 0 ∧
    (((pyLines cexText16).length -
        ((pyLines cexText16).drop 40).length : Nat) : Int) ≠
      max 0 (((pyLines cexText16).length : Int) - 40) := by
  decide

/-- C5 (amended): the stripper returns the input unchanged when the text has
at most 15 lines, and otherwise returns the lines from index 40 on joined by
newlines; it is a total function, and when the text has more than 15 lines
the number of removed lines is `min total_lines 40` (equivalently, the number
of retained lines is `max 0 (total_lines - 40)`). -/
theorem boilerplate_spec (text : String) :
    ((pyLines text).length ≤ 15 → remove_gutenberg_boilerplate text = text) ∧
    (15 < (pyLines text).length →
      remove_gutenberg_boilerplate text =
        String.intercalate "\n" ((pyLines text).drop 40) ∧
      (pyLines text).length - ((pyLines text).drop 40).length =
        min (pyLines text).length 40) := by
  constructor
  · intro h
    simp only [remove_gutenberg_boilerplate]
    rw [if_pos h]
  · intro h
    simp only [remove_gutenberg_boilerplate]
    rw [if_neg (by omega)]
    refine ⟨rfl, ?_⟩
    rw [List.length_drop]
    omega

/-- Witness for the amended C5: a one-line document passes through verbatim;
the 16-line document keeps the lines from index 40 on (none) and loses
`min 16 40 = 16` lines. -/
theorem boilerplate_spec_witness :
    remove_gutenberg_boilerplate "a" = "a" ∧
    remove_gutenberg_boilerplate cexText16 =
      String.intercalate "\n" ((pyLines cexText16).drop 40) ∧
    (pyLines cexText16).length - ((pyLines cexText16).drop 40).length =
      min (pyLines cexText16).length 40 :=
  ⟨(boilerplate_spec "a").1 (by decide),
   ((boilerplate_spec cexText16).2 (by decide)).1,
   ((boilerplate_spec cexText16).2 (by decide)).2⟩

/-! ### Claim C3 -/

theorem processFile_error_of_unreadable (detect : String → Option String)
    (max_size_mb : Nat) (f : FileOnDisk)
    (hf : readWithFallback f = Except.error ()) (acc : CombineStats) :
    processFile detect max_size_mb acc f = Except.error () := by
  unfold processFile
  rw [hf]

theorem foldlM_processFile_error (detect : String → Option String)
    (max_size_mb : Nat) (f : FileOnDisk)
    (hf : ∀ acc, processFile detect max_size_mb acc f = Except.error ())
    (pre post : List FileOnDisk) :
    ∀ init : CombineStats,
      List.foldlM (processFile detect max_size_mb) init (pre ++ f :: post) =
        Except.error () := by
  induction pre with
  | nil =>
    intro init
    rw [List.nil_append, List.foldlM_cons, hf init]
    rfl
  | cons p ps ih =>
    intro init
    rw [List.cons_append, List.foldlM_cons]
    cases hp : processFile detect max_size_mb init p with
    | error e =>
      cases e
      rfl
    | ok acc =>
      show List.foldlM (processFile detect max_size_mb) acc (ps ++ f :: post) =
        Except.error ()
      exact ih acc

/-- C3 counterexample: a file whose primary read fails with a decode error
and whose fallback read also fails does not merely get skipped — the whole
`combine_files` run aborts with the uncaught exception, and the following
readable file is never processed. -/
theorem fallback_failure_aborts_cex :
    combine_files detectConstEn 500
      [⟨ReadOutcome.unicodeError, ReadOutcome.unicodeError⟩,
       ⟨ReadOutcome.ok "hello", ReadOutcome.otherError⟩] =
      Except.error () := by
  rfl

/-- C3 (amended): each file is first read with the primary encoding, a decode
failure is retried once with the fallback encoding, and a success either way
feeds that file's processing; but a failure of the fallback read is not
caught — wherever such a file sits in the input list, the exception
propagates out of `combine_files` and aborts the whole run. -/
theorem decode_fallback_policy (detect : String → Option String)
    (max_size_mb : Nat) :
    (∀ c fb, readWithFallback ⟨ReadOutcome.ok c, fb⟩ = Except.ok c) ∧
    (∀ c, readWithFallback ⟨ReadOutcome.unicodeError, ReadOutcome.ok c⟩ =
      Except.ok c) ∧
    (∀ fb, (∀ s, fb ≠ ReadOutcome.ok s) → ∀ pre post,
      combine_files detect max_size_mb
          (pre ++ ⟨ReadOutcome.unicodeError, fb⟩ :: post) =
        Except.error ()) := by
  refine ⟨fun c fb => rfl, fun c => rfl, ?_⟩
  intro fb hfb pre post
  have herr : ∀ acc, processFile detect max_size_mb acc
      ⟨ReadOutcome.unicodeError, fb⟩ = Except.error () := by
    intro acc
    refine processFile_error_of_unreadable detect max_size_mb _ ?_ acc
    unfold readWithFallback
    cases fb with
    | ok s => exact absurd rfl (hfb s)
    | unicodeError => rfl
    | otherError => rfl
  unfold combine_files
  rw [foldlM_processFile_error detect max_size_mb _ herr pre post
    initCombineStats]
  rfl

/-- Witness for the amended C3 at concrete files: a clean primary read, a
fallback rescue, and a fallback failure that aborts the run. -/
theorem decode_fallback_policy_witness :
    readWithFallback ⟨ReadOutcome.ok "x", ReadOutcome.otherError⟩ =
      Except.ok "x" ∧
    readWithFallback ⟨ReadOutcome.unicodeError, ReadOutcome.ok "y"⟩ =
      Except.ok "y" ∧
    combine_files detectConstEn 500
        ([] ++ ⟨ReadOutcome.unicodeError, ReadOutcome.otherError⟩ :: []) =
      Except.error () :=
  ⟨(decode_fallback_policy detectConstEn 500).1 "x" ReadOutcome.otherError,
   (decode_fallback_policy detectConstEn 500).2.1 "y",
   (decode_fallback_policy detectConstEn 500).2.2 ReadOutcome.otherError
     (fun _ h => ReadOutcome.noConfusion h) [] []⟩

/-! ### Claim C9 -/

/-- C9 counterexample: with a classifier that raises on a blank sample (as
the external one does), the pre-scan records the distinct Empty file entry
for a whitespace-only document, but the per-document check of the combine
step counts the same document under `other` — the very outcome of a French
document — with no distinct empty reason. -/
theorem empty_sample_combine_cex :
    prescanClassify detectEnUnlessBlank "   " =
      ⟨false, "unknown", some "Empty file"⟩ ∧
    processFile detectEnUnlessBlank 500 initCombineStats
        ⟨ReadOutcome.ok "   ", ReadOutcome.otherError⟩ =
      Except.ok { initCombineStats with other := initCombineStats.other + 1 } ∧
    processFile detectEnUnlessBlank 500 initCombineStats
        ⟨ReadOutcome.ok "   ", ReadOutcome.otherError⟩ =
      processFile detectConstFr 500 initCombineStats
        ⟨ReadOutcome.ok "bonjour", ReadOutcome.otherError⟩ := by
  refine ⟨by decide, rfl, rfl⟩

/-- C9 (amended): a document whose first-1000-character sample is empty after
trimming is rejected with the distinct Empty file reason by the pre-scan
check only; in the per-document check of the combine step (where the
classifier raises on such a sample) it is treated as non-English and counted
under `other`, with no distinct reason. -/
theorem empty_sample_handling (detect : String → Option String) (raw : String)
    (max_size_mb : Nat) (acc : CombineStats) (fb : ReadOutcome)
    (hempty : pyStrip (pyTake raw 1000) = "")
    (hdetect : detect (pyTake raw 1000) = none) :
    prescanClassify detect raw = ⟨false, "unknown", some "Empty file"⟩ ∧
    processFile detect max_size_mb acc ⟨ReadOutcome.ok raw, fb⟩ =
      Except.ok { acc with other := acc.other + 1 } := by
  constructor
  · simp only [prescanClassify]
    rw [if_pos hempty]
  · have hrej : is_english_using_langdetect detect raw = false := by
      unfold is_english_using_langdetect
      rw [hdetect]
    exact processFile_rejected_eq detect max_size_mb acc _ raw rfl hrej

/-- Witness for the amended C9 at a concrete whitespace-only document. -/
theorem empty_sample_handling_witness :
    prescanClassify detectEnUnlessBlank "  " =
      ⟨false, "unknown", some "Empty file"⟩ ∧
    processFile detectEnUnlessBlank 500 initCombineStats
        ⟨ReadOutcome.ok "  ", ReadOutcome.otherError⟩ =
      Except.ok { initCombineStats with
        other := initCombineStats.other + 1 } :=
  empty_sample_handling detectEnUnlessBlank "  " 500 initCombineStats
    ReadOutcome.otherError (by decide) (by decide)

/-! ### Claim C8 -/

theorem subBlank_nil : subBlank [] = [] := by
  simp [subBlank]

theorem subBlank_cons_ne (c : Char) (rest : List Char) (h : c ≠ '\n') :
    subBlank (c :: rest) = c :: subBlank rest := by
  rw [subBlank]
  simp [h]

theorem subBlank_nl_some (rest : List Char) (n : Nat)
    (h : matchLen rest = some n) :
    subBlank ('\n' :: rest) = '\n' :: '\n' :: subBlank (rest.drop n) := by
  rw [subBlank]
  simp [h]

theorem subBlank_nl_none (rest : List Char) (h : matchLen rest = none) :
    subBlank ('\n' :: rest) = '\n' :: subBlank rest := by
  rw [subBlank]
  simp [h]

theorem lastNl_none_iff (l : List Char) : lastNl l = none ↔ '\n' ∉ l := by
  induction l with
  | nil => simp [lastNl]
  | cons c cs ih =>
    cases h : lastNl cs with
    | some i =>
      have hmem : '\n' ∈ cs := by
        by_contra hn
        simp [ih.mpr hn] at h
      simp [lastNl, h, hmem]
    | none =>
      have hcs : '\n' ∉ cs := ih.mp h
      by_cases hc : c = '\n'
      · subst hc
        simp [lastNl, h]
      · have hc2 : ¬ '\n' = c := fun hh => hc hh.symm
        simp [lastNl, h, hc, hcs, hc2]

theorem lastNl_lt (l : List Char) (i : Nat) (h : lastNl l = some i) :
    i < l.length := by
  induction l generalizing i with
  | nil => simp [lastNl] at h
  | cons c cs ih =>
    cases hcs : lastNl cs with
    | some j =>
      simp only [lastNl, hcs, Option.some.injEq] at h
      have := ih j hcs
      simp only [List.length_cons]
      omega
    | none =>
      simp only [lastNl, hcs] at h
      by_cases hc : c = '\n'
      · rw [if_pos hc] at h
        simp only [Option.some.injEq] at h
        subst h
        simp
      · rw [if_neg hc] at h
        cases h

theorem lastNl_drop (l : List Char) (i : Nat) (h : lastNl l = some i) :
    '\n' ∉ l.drop (i + 1) := by
  induction l generalizing i with
  | nil => simp [lastNl] at h
  | cons c cs ih =>
    cases hcs : lastNl cs with
    | some j =>
      simp only [lastNl, hcs, Option.some.injEq] at h
      subst h
      rw [List.drop_succ_cons]
      exact ih j hcs
    | none =>
      simp only [lastNl, hcs] at h
      by_cases hc : c = '\n'
      · rw [if_pos hc] at h
        simp only [Option.some.injEq] at h
        subst h
        rw [List.drop_succ_cons, List.drop_zero]
        exact (lastNl_none_iff cs).mp hcs
      · rw [if_neg hc] at h
        cases h

theorem takeWhile_append_all (p : Char → Bool) (a b : List Char)
    (h : ∀ x ∈ a, p x) :
    (a ++ b).takeWhile p = a ++ b.takeWhile p := by
  induction a with
  | nil => simp
  | cons x xs ih =>
    have hx : p x := h x (List.mem_cons_self x xs)
    rw [List.cons_append, List.takeWhile_cons_of_pos hx,
      ih (fun y hy => h y (List.mem_cons_of_mem x hy))]
    rfl

theorem takeWhile_dropWhile_nil (p : Char → Bool) (l : List Char) :
    (l.dropWhile p).takeWhile p = [] := by
  induction l with
  | nil => rfl
  | cons x xs ih =>
    by_cases hx : p x
    · rw [List.dropWhile_cons_of_pos hx]
      exact ih
    · rw [List.dropWhile_cons_of_neg hx, List.takeWhile_cons_of_neg hx]

theorem matchLen_none_iff (x : List Char) :
    matchLen x = none ↔ '\n' ∉ x.takeWhile isPySpace := by
  rw [← lastNl_none_iff]
  unfold matchLen
  cases h : lastNl (x.takeWhile isPySpace) with
  | some i => simp [h]
  | none => simp [h]

theorem matchLen_drop_none (x : List Char) (n : Nat)
    (h : matchLen x = some n) : matchLen (x.drop n) = none := by
  unfold matchLen at h
  cases hl : lastNl (x.takeWhile isPySpace) with
  | none => rw [hl] at h; cases h
  | some i =>
    rw [hl] at h
    simp only [Option.some.injEq] at h
    subst h
    rw [matchLen_none_iff]
    intro hmem
    have hi : i + 1 ≤ (x.takeWhile isPySpace).length := lastNl_lt _ i hl
    have hdrop : x.drop (i + 1) =
        (x.takeWhile isPySpace).drop (i + 1) ++ x.dropWhile isPySpace := by
      conv_lhs => rw [← List.takeWhile_append_dropWhile isPySpace x]
      rw [List.drop_append_of_le_length hi]
    rw [hdrop,
      takeWhile_append_all isPySpace _ _
        (fun y hy => List.mem_takeWhile_imp (List.mem_of_mem_drop hy)),
      takeWhile_dropWhile_nil, List.append_nil] at hmem
    exact lastNl_drop _ i hl hmem

theorem matchLen_cons_nl (X : List Char) (h : matchLen X = none) :
    matchLen ('\n' :: X) = some 1 := by
  have hnl : lastNl (X.takeWhile isPySpace) = none := by
    unfold matchLen at h
    cases hl : lastNl (X.takeWhile isPySpace) with
    | some i => rw [hl] at h; cases h
    | none => rfl
  unfold matchLen
  rw [List.takeWhile_cons_of_pos (by decide : isPySpace '\n' = true)]
  simp [lastNl, hnl]

theorem nlfree_subBlank (x : List Char)
    (h : '\n' ∉ x.takeWhile isPySpace) :
    '\n' ∉ (subBlank x).takeWhile isPySpace := by
  induction x with
  | nil => simp [subBlank_nil]
  | cons c r ih =>
    by_cases hsp : isPySpace c
    · rw [List.takeWhile_cons_of_pos hsp] at h
      have hc : c ≠ '\n' := by
        intro hceq
        subst hceq
        exact h (List.mem_cons_self _ _)
      have hr : '\n' ∉ r.takeWhile isPySpace :=
        fun hm => h (List.mem_cons_of_mem _ hm)
      rw [subBlank_cons_ne c r hc, List.takeWhile_cons_of_pos hsp]
      intro hmem
      rcases List.mem_cons.mp hmem with h1 | h2
      · exact hc h1.symm
      · exact ih hr h2
    · have hc : c ≠ '\n' := by
        intro hceq
        subst hceq
        exact hsp (by decide)
      rw [subBlank_cons_ne c r hc, List.takeWhile_cons_of_neg hsp]
      simp

theorem matchLen_subBlank_none (x : List Char) (h : matchLen x = none) :
    matchLen (subBlank x) = none := by
  rw [matchLen_none_iff] at h ⊢
  exact nlfree_subBlank x h

theorem subBlank_idem_aux (n : Nat) :
    ∀ l : List Char, l.length ≤ n → subBlank (subBlank l) = subBlank l := by
  induction n with
  | zero =>
    intro l hl
    have hnil : l = [] := List.length_eq_zero.mp (Nat.le_zero.mp hl)
    subst hnil
    simp [subBlank_nil]
  | succ n ih =>
    intro l hl
    match l with
    | [] => simp [subBlank_nil]
    | c :: rest =>
      have hrest : rest.length ≤ n := by
        simp only [List.length_cons] at hl
        omega
      by_cases hc : c = '\n'
      · subst hc
        cases hm : matchLen rest with
        | some k =>
          rw [subBlank_nl_some rest k hm]
          have h1 : matchLen (rest.drop k) = none :=
            matchLen_drop_none rest k hm
          have h2 : matchLen (subBlank (rest.drop k)) = none :=
            matchLen_subBlank_none _ h1
          have h3 : matchLen ('\n' :: subBlank (rest.drop k)) = some 1 :=
            matchLen_cons_nl _ h2
          rw [subBlank_nl_some _ 1 h3, List.drop_succ_cons, List.drop_zero,
            ih (rest.drop k) (by rw [List.length_drop]; omega)]
        | none =>
          rw [subBlank_nl_none rest hm]
          have h2 : matchLen (subBlank rest) = none :=
            matchLen_subBlank_none _ hm
          rw [subBlank_nl_none _ h2, ih rest hrest]
      · rw [subBlank_cons_ne c rest hc, subBlank_cons_ne c _ hc,
          ih rest hrest]

theorem subBlank_idem (l : List Char) : subBlank (subBlank l) = subBlank l :=
  subBlank_idem_aux l.length l (Nat.le_refl _)

/-- C8: the blank-line normalization (replacing every match of the pattern
`newline, optional whitespace, newline` by a single blank line) is
idempotent: applying it twice yields the same text as applying it once. -/
theorem normalize_blank_lines_idem (content : String) :
    normalizeBlankLines (normalizeBlankLines content) =
      normalizeBlankLines content := by
  unfold normalizeBlankLines
  have h : (String.mk (subBlank content.data)).data = subBlank content.data :=
    rfl
  rw [h, subBlank_idem]
